import Mathlib

/-!
Verification of the AeonVault credential vault (src/storage.py).

Strings are modelled as their UTF-8 byte sequences: a byte string is a
list of naturals, well-formed when every element is below 256.  The
AES-GCM primitive from PyCryptodome is modelled as an abstract
counter-mode keystream plus a 16-byte authentication tag (the structure
GCM below); everything the repository's own code does around it --
base64 encoding and decoding exactly as Python's lenient b64decode,
the nonce/tag/ciphertext slicing of AESEncryptor.decrypt, the SQLite
table operations of PasswordStorage -- is translated directly from
src/storage.py.
-/

deriving instance DecidableEq for Except

namespace AeonVault

/-- A byte string: the UTF-8 bytes of a Python str or a Python bytes value. -/
abbrev Bytes := List Nat

/-- Well-formedness: every byte is below 256. -/
def isBytes (l : Bytes) : Prop := ∀ b ∈ l, b < 256

instance (l : Bytes) : Decidable (isBytes l) := by
  unfold isBytes; infer_instance

/-! ### base64, as Python's base64.b64encode / base64.b64decode (non-strict) -/

/-- The standard base64 alphabet, as ASCII codes: A-Z, a-z, 0-9, plus, slash. -/
def b64chars : Bytes :=
  [65, 66, 67, 68, 69, 70, 71, 72, 73, 74, 75, 76, 77, 78, 79, 80, 81, 82,
   83, 84, 85, 86, 87, 88, 89, 90,
   97, 98, 99, 100, 101, 102, 103, 104, 105, 106, 107, 108, 109, 110, 111,
   112, 113, 114, 115, 116, 117, 118, 119, 120, 121, 122,
   48, 49, 50, 51, 52, 53, 54, 55, 56, 57, 43, 47]

/-- Character of the base64 alphabet at a 6-bit index. -/
def ch (i : Nat) : Nat := b64chars.getD i 0

/-- Inverse alphabet lookup (table_a2b_base64): 6-bit value of an ASCII
code, none when the code is not in the alphabet. -/
def decTable (c : Nat) : Option Nat :=
  if 65 ≤ c ∧ c ≤ 90 then some (c - 65)
  else if 97 ≤ c ∧ c ≤ 122 then some (c - 71)
  else if 48 ≤ c ∧ c ≤ 57 then some (c + 4)
  else if c = 43 then some 62
  else if c = 47 then some 63
  else none

/-- base64.b64encode: groups of three bytes become four alphabet
characters; a final group of one or two bytes is padded with 61 (ASCII
for the equals sign). -/
def b64encode : Bytes → Bytes
  | [] => []
  | [b0] => [ch (b0 / 4), ch (b0 % 4 * 16), 61, 61]
  | [b0, b1] => [ch (b0 / 4), ch (b0 % 4 * 16 + b1 / 16), ch (b1 % 16 * 4), 61]
  | b0 :: b1 :: b2 :: rest =>
      ch (b0 / 4) :: ch (b0 % 4 * 16 + b1 / 16) :: ch (b1 % 16 * 4 + b2 / 64) ::
      ch (b2 % 64) :: b64encode rest

/-- The two failure modes of binascii.a2b_base64 in non-strict mode
(both surface in Python as binascii.Error, a subclass of ValueError):
a number of data characters that is 1 more than a multiple of 4, or a
quad left open at end of input (incorrect padding). -/
inductive B64Error where
  | leftoverOne
  | incorrectPadding
  deriving DecidableEq, Repr

/-- The state machine of CPython's binascii.a2b_base64 with
strict_mode=False: acc holds the pending bits of the current quad, qp
counts the data characters seen in the current quad, pads counts the
padding characters closing it.  Characters outside the alphabet are
skipped; a padding character is ignored unless at least two data
characters of the quad were seen, and once the quad is closed by
padding the rest of the input is ignored. -/
def b64run : Bytes → Nat → Nat → Nat → Except B64Error Bytes
  | [], _, qp, _ =>
      if qp = 0 then .ok []
      else if qp = 1 then .error .leftoverOne
      else .error .incorrectPadding
  | c :: rest, acc, qp, pads =>
      if c = 61 then
        if 2 ≤ qp then
          if 4 ≤ qp + pads + 1 then .ok []
          else b64run rest acc qp (pads + 1)
        else b64run rest acc qp pads
      else
        match decTable c with
        | none => b64run rest acc qp pads
        | some d =>
          match qp with
          | 0 => b64run rest d 1 0
          | 1 => (b64run rest (d % 16) 2 0).map (fun out => (acc * 4 + d / 16) :: out)
          | 2 => (b64run rest (d % 4) 3 0).map (fun out => (acc * 16 + d / 4) :: out)
          | _ => (b64run rest 0 0 0).map (fun out => (acc * 64 + d) :: out)

/-- base64.b64decode on a byte string, as called by AESEncryptor.decrypt. -/
def b64decodePy (s : Bytes) : Except B64Error Bytes := b64run s 0 0 0

/-! ### The AES-GCM primitive of PyCryptodome, abstracted

AESEncryptor delegates the cipher itself to Crypto.Cipher.AES in GCM
mode: counter-mode encryption (a keystream derived from key and nonce,
xor-ed with the plaintext) plus a 16-byte authentication tag computed
from key, nonce and ciphertext.  The structure below captures exactly
that interface; the repository's code is translated on top of it. -/

structure GCM where
  keystream : Bytes → Bytes → Nat → Nat
  mac : Bytes → Bytes → Bytes → Bytes
  mac_len : ∀ k n c, (mac k n c).length = 16
  mac_lt : ∀ k n c, isBytes (mac k n c)
  ks_lt : ∀ k n i, keystream k n i < 256

/-- Counter-mode body: xor a byte stream against the keystream starting
at byte index i.  Applying it twice with the same keystream is the
identity, which is how GCM decryption recovers the plaintext. -/
def xorStream (ks : Nat → Nat) : Nat → Bytes → Bytes
  | _, [] => []
  | i, b :: rest => (b ^^^ ks i) :: xorStream ks (i + 1) rest

/-- AESEncryptor.encrypt: encrypt the plaintext with a fresh 16-byte
nonce (PyCryptodome's default GCM nonce length, passed here as the
randomness parameter), concatenate nonce, tag and ciphertext, and
base64-encode the result. -/
def encrypt (gcm : GCM) (key nonce pt : Bytes) : Bytes :=
  b64encode (nonce ++ gcm.mac key nonce (xorStream (gcm.keystream key nonce) 0 pt)
    ++ xorStream (gcm.keystream key nonce) 0 pt)

/-- The errors AESEncryptor.decrypt can raise, named by the spec's
taxonomy: malformedInput is binascii.Error from b64decode;
nonceEmpty is the ValueError raised by AES.new on an empty nonce;
tamperedOrWrongKey is the MAC-check ValueError of decrypt_and_verify. -/
inductive DecryptError where
  | malformedInput
  | nonceEmpty
  | tamperedOrWrongKey
  deriving DecidableEq, Repr

/-- AESEncryptor.decrypt: base64-decode, slice the first 16 bytes as
nonce and the next 16 as tag (data up to 16, 16 up to 32, 32 onward),
construct the cipher (which rejects an empty nonce), then
decrypt_and_verify: recompute the tag over the ciphertext and compare;
on match return the decrypted bytes, otherwise fail. -/
def decrypt (gcm : GCM) (key enc : Bytes) : Except DecryptError Bytes :=
  match b64decodePy enc with
  | .error _ => .error .malformedInput
  | .ok data =>
      if data.take 16 = [] then .error .nonceEmpty
      else if (data.drop 16).take 16 = gcm.mac key (data.take 16) (data.drop 32) then
        .ok (xorStream (gcm.keystream key (data.take 16)) 0 (data.drop 32))
      else .error .tamperedOrWrongKey

/-! ### Round-trip of the encoding layers -/

/-- Alphabet characters decode back to their index, are never the
padding character, and are bytes. -/
theorem ch_spec : ∀ i, i < 64 → decTable (ch i) = some i ∧ ch i ≠ 61 ∧ ch i < 256 := by
  decide

/-- Python's lenient decoder inverts b64encode on well-formed bytes. -/
theorem b64_roundtrip : ∀ l : Bytes, isBytes l → b64run (b64encode l) 0 0 0 = .ok l
  | [], _ => rfl
  | [b0], h => by
      have hb0 : b0 < 256 := h b0 (by simp)
      obtain ⟨d1, n1, -⟩ := ch_spec (b0 / 4) (by omega)
      obtain ⟨d2, n2, -⟩ := ch_spec (b0 % 4 * 16) (by omega)
      simp only [b64encode, b64run, n1, n2, d1, d2, if_neg, if_pos, reduceIte]
      simp [Except.map]
      omega
  | [b0, b1], h => by
      have hb0 : b0 < 256 := h b0 (by simp)
      have hb1 : b1 < 256 := h b1 (by simp)
      obtain ⟨d1, n1, -⟩ := ch_spec (b0 / 4) (by omega)
      obtain ⟨d2, n2, -⟩ := ch_spec (b0 % 4 * 16 + b1 / 16) (by omega)
      obtain ⟨d3, n3, -⟩ := ch_spec (b1 % 16 * 4) (by omega)
      simp only [b64encode, b64run, n1, n2, n3, d1, d2, d3, reduceIte]
      simp [Except.map]
      omega
  | b0 :: b1 :: b2 :: rest, h => by
      have hb0 : b0 < 256 := h b0 (by simp)
      have hb1 : b1 < 256 := h b1 (by simp)
      have hb2 : b2 < 256 := h b2 (by simp)
      have ih := b64_roundtrip rest (fun b hb => h b (by simp [hb]))
      obtain ⟨d1, n1, -⟩ := ch_spec (b0 / 4) (by omega)
      obtain ⟨d2, n2, -⟩ := ch_spec (b0 % 4 * 16 + b1 / 16) (by omega)
      obtain ⟨d3, n3, -⟩ := ch_spec (b1 % 16 * 4 + b2 / 64) (by omega)
      obtain ⟨d4, n4, -⟩ := ch_spec (b2 % 64) (by omega)
      simp only [b64encode, b64run, n1, n2, n3, n4, d1, d2, d3, d4, reduceIte]
      simp [Except.map, ih]
      omega

/-- b64decodePy inverts b64encode on well-formed bytes. -/
theorem b64decodePy_encode (l : Bytes) (h : isBytes l) : b64decodePy (b64encode l) = .ok l :=
  b64_roundtrip l h

/-- Xoring against the same keystream twice is the identity. -/
theorem xorStream_xorStream (ks : Nat → Nat) :
    ∀ (i : Nat) (l : Bytes), xorStream ks i (xorStream ks i l) = l
  | _, [] => rfl
  | i, b :: rest => by
      simp [xorStream, Nat.xor_cancel_right, xorStream_xorStream ks (i + 1) rest]

/-- The bytes produced by xorStream are well-formed when its inputs are. -/
theorem xorStream_isBytes (ks : Nat → Nat) (hks : ∀ i, ks i < 256) :
    ∀ (i : Nat) (l : Bytes), isBytes l → isBytes (xorStream ks i l)
  | _, [], _ => by intro b hb; simp [xorStream] at hb
  | i, b :: rest, h => by
      intro x hx
      simp only [xorStream, List.mem_cons] at hx
      rcases hx with hx | hx
      · subst hx
        have h1 : b < 2 ^ 8 := h b (by simp)
        have h2 : ks i < 2 ^ 8 := hks i
        exact Nat.xor_lt_two_pow h1 h2
      · exact xorStream_isBytes ks hks (i + 1) rest (fun y hy => h y (by simp [hy])) x hx

/-- Core round-trip: decrypt inverts encrypt under the same key and
nonce.  Shared by the theorems for C1, C6 and C7. -/
theorem decrypt_encrypt (gcm : GCM) (key nonce pt : Bytes)
    (hn : nonce.length = 16) (hnb : isBytes nonce) (hpt : isBytes pt) :
    decrypt gcm key (encrypt gcm key nonce pt) = .ok pt := by
  have hct : isBytes (xorStream (gcm.keystream key nonce) 0 pt) :=
    xorStream_isBytes _ (gcm.ks_lt key nonce) 0 pt hpt
  have hpayload :
      isBytes (nonce ++ gcm.mac key nonce (xorStream (gcm.keystream key nonce) 0 pt)
        ++ xorStream (gcm.keystream key nonce) 0 pt) := by
    intro b hb
    simp only [List.append_assoc, List.mem_append] at hb
    rcases hb with hb | hb | hb
    · exact hnb b hb
    · exact gcm.mac_lt key nonce _ b hb
    · exact hct b hb
  unfold encrypt decrypt
  rw [b64decodePy_encode _ hpayload]
  have hmac := gcm.mac_len key nonce (xorStream (gcm.keystream key nonce) 0 pt)
  have htake : (nonce ++ gcm.mac key nonce (xorStream (gcm.keystream key nonce) 0 pt)
      ++ xorStream (gcm.keystream key nonce) 0 pt).take 16 = nonce := by
    rw [List.append_assoc]
    exact List.take_left' hn
  have hdrop16 : (nonce ++ gcm.mac key nonce (xorStream (gcm.keystream key nonce) 0 pt)
      ++ xorStream (gcm.keystream key nonce) 0 pt).drop 16
      = gcm.mac key nonce (xorStream (gcm.keystream key nonce) 0 pt)
        ++ xorStream (gcm.keystream key nonce) 0 pt := by
    rw [List.append_assoc]
    exact List.drop_left' hn
  have hdrop32 : (nonce ++ gcm.mac key nonce (xorStream (gcm.keystream key nonce) 0 pt)
      ++ xorStream (gcm.keystream key nonce) 0 pt).drop 32
      = xorStream (gcm.keystream key nonce) 0 pt :=
    List.drop_left' (by simp [hn, hmac])
  dsimp only
  rw [htake, hdrop16, hdrop32, List.take_left' hmac]
  have hne : nonce ≠ [] := by
    intro e; rw [e] at hn; simp at hn
  rw [if_neg hne, if_pos rfl, xorStream_xorStream]

/-! ### A concrete instance of the cipher interface, for evaluation -/

/-- A concrete executable instance of the GCM interface: a toy
keystream and tag satisfying the structural contract (16-byte tag of
bytes).  It stands in for AES-GCM when theorems are evaluated at
concrete inputs. -/
def gcmModel : GCM where
  keystream := fun key nonce i => (key.sum + nonce.sum + i) % 256
  mac := fun key nonce c =>
    (List.range 16).map (fun i => (key.sum + nonce.sum + c.sum + c.length + i) % 256)
  mac_len := by intro k n c; simp
  mac_lt := by
    intro k n c b hb
    simp only [List.mem_map, List.mem_range] at hb
    obtain ⟨i, -, rfl⟩ := hb
    exact Nat.mod_lt _ (by norm_num)
  ks_lt := by intro k n i; exact Nat.mod_lt _ (by norm_num)

/-- A 256-bit key, as the 32 bytes PBKDF2 produces. -/
def key0 : Bytes := List.replicate 32 0

/-- A 16-byte nonce, PyCryptodome's default GCM nonce length. -/
def nonce0 : Bytes := List.replicate 16 0

/-! ### C1: encrypt/decrypt round trip -/

/-- C1: for every derived key, every 16-byte nonce and every plaintext
byte string (including the empty one), decrypting the result of
encrypting it under that key returns the plaintext exactly. -/
theorem C1_decrypt_encrypt_roundtrip (gcm : GCM) (key nonce pt : Bytes)
    (hn : nonce.length = 16) (hnb : isBytes nonce) (hpt : isBytes pt) :
    decrypt gcm key (encrypt gcm key nonce pt) = .ok pt :=
  decrypt_encrypt gcm key nonce pt hn hnb hpt

/-- Witness for C1 at concrete inputs, including the empty plaintext. -/
theorem C1_witness :
    decrypt gcmModel key0 (encrypt gcmModel key0 nonce0 [72, 105]) = .ok [72, 105]
    ∧ decrypt gcmModel key0 (encrypt gcmModel key0 nonce0 []) = .ok [] :=
  ⟨C1_decrypt_encrypt_roundtrip gcmModel key0 nonce0 [72, 105] (by decide) (by decide)
      (by decide),
   C1_decrypt_encrypt_roundtrip gcmModel key0 nonce0 [] (by decide) (by decide) (by decide)⟩

/-! ### C2: single-byte tampering -/

/-- C2 (amended): flipping a single byte of an encoded EncryptedField
makes decrypt either fail (with tamperedOrWrongKey, malformedInput or
nonceEmpty) or return the original plaintext unchanged (this happens
when the flip only alters bits that the lenient base64 decoder
discards); it returns anything else only if the flipped encoding
decodes to a different nonce/tag/ciphertext triple whose tag
nevertheless passes verification, i.e. a MAC forgery. -/
theorem C2_single_byte_flip (gcm : GCM) (key nonce pt : Bytes) (i b : Nat) :
    (∃ e, decrypt gcm key ((encrypt gcm key nonce pt).set i b) = .error e)
    ∨ decrypt gcm key ((encrypt gcm key nonce pt).set i b) = .ok pt
    ∨ (∃ data, b64decodePy ((encrypt gcm key nonce pt).set i b) = .ok data
        ∧ (data.take 16, (data.drop 16).take 16, data.drop 32)
            ≠ (nonce, gcm.mac key nonce (xorStream (gcm.keystream key nonce) 0 pt),
                xorStream (gcm.keystream key nonce) 0 pt)
        ∧ (data.drop 16).take 16 = gcm.mac key (data.take 16) (data.drop 32)) := by
  cases hdec : b64decodePy ((encrypt gcm key nonce pt).set i b) with
  | error e =>
      exact .inl ⟨.malformedInput, by unfold decrypt; rw [hdec]⟩
  | ok data =>
      have hd : decrypt gcm key ((encrypt gcm key nonce pt).set i b)
          = (if data.take 16 = [] then .error .nonceEmpty
             else if (data.drop 16).take 16 = gcm.mac key (data.take 16) (data.drop 32) then
               .ok (xorStream (gcm.keystream key (data.take 16)) 0 (data.drop 32))
             else .error .tamperedOrWrongKey) := by
        unfold decrypt; rw [hdec]
      by_cases hnil : data.take 16 = []
      · exact .inl ⟨.nonceEmpty, by rw [hd, if_pos hnil]⟩
      · by_cases htag : (data.drop 16).take 16 = gcm.mac key (data.take 16) (data.drop 32)
        · by_cases heq : (data.take 16, (data.drop 16).take 16, data.drop 32)
              = (nonce, gcm.mac key nonce (xorStream (gcm.keystream key nonce) 0 pt),
                  xorStream (gcm.keystream key nonce) 0 pt)
          · refine .inr (.inl ?_)
            rw [Prod.mk.injEq, Prod.mk.injEq] at heq
            obtain ⟨h1, -, h3⟩ := heq
            rw [hd, if_neg hnil, if_pos htag, h1, h3, xorStream_xorStream]
          · exact .inr (.inr ⟨data, rfl, heq, htag⟩)
        · exact .inl ⟨.tamperedOrWrongKey, by rw [hd, if_neg hnil, if_neg htag]⟩

/-- C2 counterexample: a genuine single-byte modification of a concrete
encoded field (byte 42, the last data character before the padding, is
changed from ASCII 56 to ASCII 57, altering only the two low bits that
the base64 decoder discards) on which decrypt does not fail at all: it
succeeds and returns the original plaintext. -/
theorem C2_counterexample :
    (encrypt gcmModel key0 nonce0 []).set 42 57 ≠ encrypt gcmModel key0 nonce0 []
    ∧ decrypt gcmModel key0 ((encrypt gcmModel key0 nonce0 []).set 42 57) = .ok [] := by
  decide

/-! ### C4: malformed inputs and too-short inputs -/

/-- C4 (amended): decrypt fails with malformedInput exactly when the
lenient base64 decoder rejects the encoded string; when the string
decodes but to fewer than the 32 bytes needed for a full nonce plus a
full tag, decrypt instead fails with tamperedOrWrongKey (the 16-byte
recomputed tag can never equal the short stored tag), or with the
empty-nonce ValueError when the decoded string is empty.  It never
returns a plaintext in any of these cases. -/
theorem C4_malformed_and_short (gcm : GCM) (key s : Bytes) :
    (∀ e, b64decodePy s = .error e → decrypt gcm key s = .error .malformedInput)
    ∧ (b64decodePy s = .ok [] → decrypt gcm key s = .error .nonceEmpty)
    ∧ (∀ data, b64decodePy s = .ok data → data ≠ [] → data.length < 32 →
        decrypt gcm key s = .error .tamperedOrWrongKey) := by
  refine ⟨?_, ?_, ?_⟩
  · intro e he; unfold decrypt; rw [he]
  · intro h; unfold decrypt; rw [h]; rfl
  · intro data hd hne hlen
    unfold decrypt; rw [hd]
    dsimp only
    have h1 : data.take 16 ≠ [] := by
      simp [List.take_eq_nil_iff, hne]
    have h2 : ((data.drop 16).take 16).length < 16 := by
      rw [List.length_take, List.length_drop]
      omega
    have h3 : (data.drop 16).take 16 ≠ gcm.mac key (data.take 16) (data.drop 32) := by
      intro e
      rw [e, gcm.mac_len] at h2
      omega
    rw [if_neg h1, if_neg h3]

/-- C4 counterexample: the four-character string AAAA is valid base64
and decodes to only three bytes, fewer than nonce plus tag; the claim
says this fails with MalformedInput, but decrypt fails with the
MAC-check ValueError, i.e. tamperedOrWrongKey, a distinct error. -/
theorem C4_counterexample :
    decrypt gcmModel key0 [65, 65, 65, 65] = .error .tamperedOrWrongKey
    ∧ DecryptError.tamperedOrWrongKey ≠ DecryptError.malformedInput := by
  decide

/-- Witness for C4 at concrete inputs: a one-character string rejected
by the base64 decoder, the empty string, and a valid four-character
string decoding to three bytes. -/
theorem C4_witness :
    decrypt gcmModel key0 [65] = .error .malformedInput
    ∧ decrypt gcmModel key0 [] = .error .nonceEmpty
    ∧ decrypt gcmModel key0 [66, 66, 66, 66] = .error .tamperedOrWrongKey :=
  ⟨(C4_malformed_and_short gcmModel key0 [65]).1 .leftoverOne (by decide),
   (C4_malformed_and_short gcmModel key0 []).2.1 (by decide),
   (C4_malformed_and_short gcmModel key0 [66, 66, 66, 66]).2.2 [4, 16, 65] (by decide)
     (by decide) (by decide)⟩

/-! ### The record store (the SQLite passwords table of PasswordStorage)

A row of the passwords table: plaintext service name (the primary key)
and the two base64-encoded encrypted fields, all as byte strings. -/

abbrev Table := List (Bytes × Bytes × Bytes)

/-- INSERT OR REPLACE INTO passwords keyed by the service primary key:
any existing row for the service is replaced by the new one. -/
def upsert (t : Table) (service el ep : Bytes) : Table :=
  t.filter (fun r => !(r.1 == service)) ++ [(service, el, ep)]

/-- PasswordStorage.save: encrypt the login, encrypt the password (two
independent Engine calls with two independent nonces), then upsert the
row for the service. -/
def save (gcm : GCM) (key n1 n2 : Bytes) (t : Table) (service login password : Bytes) :
    Table :=
  upsert t service (encrypt gcm key n1 login) (encrypt gcm key n2 password)

/-- PasswordStorage.save with its two Engine calls abstracted as
fallible encryptors, in the statement order of the source: first
encrypt the login, then encrypt the password, and only then execute
the INSERT OR REPLACE.  An exception from either encryption call
propagates before any write happens, so the table is returned
untouched. -/
def saveWith {ε : Type} (enc1 enc2 : Bytes → Except ε Bytes) (t : Table)
    (service login password : Bytes) : Except ε Unit × Table :=
  match enc1 login with
  | .error e => (.error e, t)
  | .ok el =>
      match enc2 password with
      | .error e => (.error e, t)
      | .ok ep => (.ok (), upsert t service el ep)

/-- PasswordStorage.get: SELECT the row whose service matches exactly;
when absent return none; when present decrypt both fields and return
the pair. -/
def get (gcm : GCM) (key : Bytes) (t : Table) (service : Bytes) :
    Except DecryptError (Option (Bytes × Bytes)) :=
  match t.find? (fun r => r.1 == service) with
  | none => .ok none
  | some r => do
      let login ← decrypt gcm key r.2.1
      let password ← decrypt gcm key r.2.2
      .ok (some (login, password))

/-- Lexicographic comparison of byte strings: SQLite's BINARY collation
(memcmp of the UTF-8 encodings), the order of ORDER BY service. -/
def lexLe : Bytes → Bytes → Bool
  | [], _ => true
  | _ :: _, [] => false
  | a :: as, b :: bs => if a < b then true else if b < a then false else lexLe as bs

/-- PasswordStorage.list_all: SELECT service FROM passwords ORDER BY
service, i.e. the service names sorted under the BINARY collation. -/
def list_all (t : Table) : List Bytes := (t.map (fun r => r.1)).mergeSort lexLe

/-! ### The PasswordStorage object and its lifecycle -/

/-- The state of an AESEncryptor instance: the salt it was built with
and the PBKDF2-derived 256-bit key it stores (self.salt, self.key). -/
structure AESEncryptorState where
  salt : Bytes
  key : Bytes
  deriving DecidableEq, Repr

/-- The in-memory fields of a PasswordStorage object: whether the
SQLite connection is open, the crypto object (once _setup_crypto has
run), and the passwords table. -/
structure PasswordStorage where
  conn_open : Bool
  crypto : Option AESEncryptorState
  table : Table
  deriving DecidableEq, Repr

/-- PasswordStorage.close: the method body is exactly
self.conn.close() -- it closes the SQLite connection and touches no
other field. -/
def PasswordStorage.close (ps : PasswordStorage) : PasswordStorage :=
  { ps with conn_open := false }

/-- The on-disk artifacts _setup_crypto consults: whether the database
file exists, and the contents of the salt file and of the master-hash
file when they exist. -/
structure FS where
  db_exists : Bool
  salt_file : Option Bytes
  hash_file : Option Bytes
  deriving DecidableEq, Repr

/-- The exceptions of _setup_crypto: the creation-time ValueError when
the two entered passwords differ, the verification-time ValueError on
a wrong password (caught by the retry loop), the FileNotFoundError
when the hash file is missing for an existing vault, and a model
artifact for an exhausted passphrase provider (the source would block
on getpass forever). -/
inductive SetupError where
  | passwordsMismatch
  | wrongPassword
  | hashFileNotFound
  | outOfInput
  deriving DecidableEq, Repr

/-- PasswordStorage._test_password: when the hash file exists, compare
the SHA-256 hex digest of the candidate password with the stored
digest and raise ValueError on mismatch; when it does not exist, raise
FileNotFoundError.  The hash function is a parameter (sha), since
hashlib.sha256 is a library primitive. -/
def testPassword (sha : Bytes → Bytes) (fs : FS) (pw : Bytes) : Except SetupError Unit :=
  match fs.hash_file with
  | some saved => if sha pw = saved then .ok () else .error .wrongPassword
  | none => .error .hashFileNotFound

/-- The while-True loop of the existing-vault branch of _setup_crypto:
take the next password from the provider, build the AESEncryptor with
the persisted salt, test the password; a wrong-password ValueError is
caught and the loop re-prompts, any other exception propagates.  The
key-derivation function is a parameter (kdf), since PBKDF2 is a
library primitive. -/
def setupLoop (sha : Bytes → Bytes) (kdf : Bytes → Bytes → Bytes) (fs : FS) (salt : Bytes) :
    List Bytes → Except SetupError AESEncryptorState
  | [] => .error .outOfInput
  | pw :: rest =>
      match testPassword sha fs pw with
      | .ok () => .ok ⟨salt, kdf pw salt⟩
      | .error .wrongPassword => setupLoop sha kdf fs salt rest
      | .error e => .error e

/-- PasswordStorage._setup_crypto: when both the database file and the
salt file exist, read the salt and run the verification loop, leaving
the on-disk artifacts untouched; otherwise run the new-vault flow:
read a password and its confirmation, raise ValueError when they
differ, and otherwise build a new AESEncryptor with a fresh random
salt (the newSalt parameter) and write both the salt file and the
hash file.  Returns the crypto state together with the resulting
on-disk state. -/
def setupCrypto (sha : Bytes → Bytes) (kdf : Bytes → Bytes → Bytes) (newSalt : Bytes)
    (fs : FS) (inputs : List Bytes) : Except SetupError AESEncryptorState × FS :=
  if h : fs.db_exists ∧ fs.salt_file.isSome then
    (setupLoop sha kdf fs (fs.salt_file.get h.2) inputs, fs)
  else
    match inputs with
    | pw :: pw2 :: _ =>
        if pw ≠ pw2 then (.error .passwordsMismatch, fs)
        else (.ok ⟨newSalt, kdf pw newSalt⟩,
              { fs with salt_file := some newSalt, hash_file := some (sha pw) })
    | _ => (.error .outOfInput, fs)

/-- A concrete stand-in for hashlib.sha256's hex digest, used to
evaluate the lifecycle theorems at concrete inputs. -/
def shaModel (pw : Bytes) : Bytes := 104 :: pw

/-- A concrete stand-in for PBKDF2, used to evaluate the lifecycle
theorems at concrete inputs. -/
def kdfModel (pw salt : Bytes) : Bytes := pw ++ salt

/-! ### C3: missing artifacts on an existing vault -/

/-- C3 (amended): opening a vault whose database exists but whose
verification (hash) file is missing, with the salt file present, fails
fatally with FileNotFoundError -- the spec's CorruptVault -- leaving the
on-disk artifacts untouched; but when it is the salt file that is
missing, _setup_crypto does not fail: it silently enters the new-vault
creation flow and overwrites both the salt file and the verification
file. -/
theorem C3_missing_artifacts (sha : Bytes → Bytes) (kdf : Bytes → Bytes → Bytes)
    (ns s0 hv pw : Bytes) (rest : List Bytes) :
    setupCrypto sha kdf ns ⟨true, some s0, none⟩ (pw :: rest)
      = (.error .hashFileNotFound, ⟨true, some s0, none⟩)
    ∧ setupCrypto sha kdf ns ⟨true, none, some hv⟩ (pw :: pw :: rest)
      = (.ok ⟨ns, kdf pw ns⟩, ⟨true, some ns, some (sha pw)⟩) := by
  constructor
  · simp [setupCrypto, setupLoop, testPassword]
  · simp [setupCrypto]

/-- C3 counterexample: a concrete vault state whose database exists and
whose verification file is present but whose salt file is missing.  The
claim says opening must fail fatally with CorruptVault and never enter
the creation flow; instead _setup_crypto succeeds, generates a fresh
salt and overwrites both the salt file and the verification file. -/
theorem C3_counterexample :
    setupCrypto shaModel kdfModel [9] ⟨true, none, some [1]⟩ [[5], [5]]
      = (.ok ⟨[9], [5, 9]⟩, ⟨true, some [9], some [104, 5]⟩)
    ∧ some ([104, 5] : Bytes) ≠ some ([1] : Bytes) := by
  decide

/-! ### C5: close -/

/-- C5 (amended): PasswordStorage.close closes the SQLite connection
and nothing else: the crypto object, and with it the derived MasterKey
bytes, stays in the object's fields, as does the table handle's
contents. -/
theorem C5_close_releases_connection_only (ps : PasswordStorage) :
    ps.close.conn_open = false ∧ ps.close.crypto = ps.crypto ∧ ps.close.table = ps.table :=
  ⟨rfl, rfl, rfl⟩

/-- C5 counterexample: after close on a storage holding a derived key,
the crypto field still holds the very same derived key bytes, refuting
that no field of the closed vault holds the MasterKey. -/
theorem C5_counterexample :
    (PasswordStorage.close ⟨true, some ⟨[1], kdfModel [5] [1]⟩, []⟩).crypto
      = some ⟨[1], kdfModel [5] [1]⟩ := rfl

/-! ### C9: the verification artifact depends only on the passphrase -/

/-- New-vault flow: the hash file written by _setup_crypto is the hash
of the passphrase alone. -/
theorem newVault_hash_file (sha : Bytes → Bytes) (kdf : Bytes → Bytes → Bytes)
    (ns pw : Bytes) (r : List Bytes) (fs : FS) (h : fs.db_exists = false) :
    (setupCrypto sha kdf ns fs (pw :: pw :: r)).2.hash_file = some (sha pw) := by
  simp [setupCrypto, h]

/-- C9: the persisted verification artifact is a function of the
passphrase alone: two vault creations with the same passphrase but
different fresh salts write byte-for-byte identical verification
files, namely the unsalted hash of the passphrase, independent of the
salt and of the derived key. -/
theorem C9_verification_independent_of_salt (sha : Bytes → Bytes)
    (kdf : Bytes → Bytes → Bytes) (ns1 ns2 pw : Bytes) (r1 r2 : List Bytes) (fs1 fs2 : FS)
    (h1 : fs1.db_exists = false) (h2 : fs2.db_exists = false) (hne : ns1 ≠ ns2) :
    (setupCrypto sha kdf ns1 fs1 (pw :: pw :: r1)).2.hash_file
      = (setupCrypto sha kdf ns2 fs2 (pw :: pw :: r2)).2.hash_file
    ∧ (setupCrypto sha kdf ns1 fs1 (pw :: pw :: r1)).2.hash_file = some (sha pw) :=
  ⟨(newVault_hash_file sha kdf ns1 pw r1 fs1 h1).trans
      (newVault_hash_file sha kdf ns2 pw r2 fs2 h2).symm,
   newVault_hash_file sha kdf ns1 pw r1 fs1 h1⟩

/-- Witness for C9 at concrete inputs with two different salts. -/
theorem C9_witness :
    (setupCrypto shaModel kdfModel [1] ⟨false, none, none⟩ [[5], [5]]).2.hash_file
      = (setupCrypto shaModel kdfModel [2] ⟨false, none, none⟩ [[5], [5]]).2.hash_file
    ∧ (setupCrypto shaModel kdfModel [1] ⟨false, none, none⟩ [[5], [5]]).2.hash_file
      = some (shaModel [5]) :=
  C9_verification_independent_of_salt shaModel kdfModel [1] [2] [5] [] []
    ⟨false, none, none⟩ ⟨false, none, none⟩ rfl rfl (by decide)

/-! ### C10: both encryptions happen before the write -/

/-- C10: save encrypts the login and the password before performing
any write: when either abstracted encryption call fails, the exception
propagates and the table is exactly what it was before the call -- no
partial record is written or overwritten. -/
theorem C10_no_partial_write {ε : Type} (enc1 enc2 : Bytes → Except ε Bytes)
    (t : Table) (s l p : Bytes) (e : ε) :
    (enc1 l = .error e → saveWith enc1 enc2 t s l p = (.error e, t))
    ∧ (∀ el, enc1 l = .ok el → enc2 p = .error e →
        saveWith enc1 enc2 t s l p = (.error e, t)) := by
  constructor
  · intro h; unfold saveWith; rw [h]
  · intro el h1 h2; unfold saveWith; rw [h1]; dsimp only; rw [h2]

/-- Witness for C10: a first encryptor that fails, and a second
encryptor that fails after the first succeeded; in both runs the table
is returned untouched. -/
theorem C10_witness :
    saveWith (fun _ => (.error () : Except Unit Bytes)) (fun x => .ok x)
        [([7], [8], [9])] [1] [2] [3] = (.error (), [([7], [8], [9])])
    ∧ saveWith (fun x => (.ok x : Except Unit Bytes)) (fun _ => .error ())
        [([7], [8], [9])] [1] [2] [3] = (.error (), [([7], [8], [9])]) :=
  ⟨(C10_no_partial_write (fun _ => .error ()) (fun x => .ok x)
      [([7], [8], [9])] [1] [2] [3] ()).1 rfl,
   (C10_no_partial_write (fun x => .ok x) (fun _ => .error ())
      [([7], [8], [9])] [1] [2] [3] ()).2 [2] rfl rfl⟩

/-! ### C6 and C7: record lookup after upsert -/

/-- After an upsert there is exactly one row for the service. -/
theorem countP_upsert (t : Table) (s el ep : Bytes) :
    (upsert t s el ep).countP (fun r => r.1 == s) = 1 := by
  unfold upsert
  rw [List.countP_append]
  have h : (t.filter (fun r => !(r.1 == s))).countP (fun r => r.1 == s) = 0 := by
    rw [List.countP_eq_zero]
    intro r hr
    have hf := List.of_mem_filter hr
    simp at hf ⊢
    exact hf
  rw [h]
  simp [List.countP_cons]

/-- Looking up the service after an upsert finds the new row. -/
theorem find?_upsert (t : Table) (s el ep : Bytes) :
    (upsert t s el ep).find? (fun r => r.1 == s) = some (s, el, ep) := by
  unfold upsert
  induction t with
  | nil => simp [List.find?]
  | cons r rest ih =>
      by_cases h : r.1 = s
      · simp [List.filter_cons, h]
      · simp [List.filter_cons, h, List.find?]

/-- C6: save has upsert semantics keyed by service: after two saves for
the same service, the store holds exactly one row for it and get
returns the values of the latest save only. -/
theorem C6_save_is_upsert (gcm : GCM) (key nA nB nC nD : Bytes) (t : Table)
    (s l1 p1 l2 p2 : Bytes)
    (hnC : nC.length = 16) (hnD : nD.length = 16) (hbC : isBytes nC) (hbD : isBytes nD)
    (hl2 : isBytes l2) (hp2 : isBytes p2) :
    (save gcm key nC nD (save gcm key nA nB t s l1 p1) s l2 p2).countP
        (fun r => r.1 == s) = 1
    ∧ get gcm key (save gcm key nC nD (save gcm key nA nB t s l1 p1) s l2 p2) s
        = .ok (some (l2, p2)) := by
  constructor
  · exact countP_upsert _ s _ _
  · unfold get save
    rw [find?_upsert]
    simp only [decrypt_encrypt gcm key nC l2 hnC hbC hl2,
      decrypt_encrypt gcm key nD p2 hnD hbD hp2]
    rfl

/-- Witness for C6 at concrete inputs: two saves for the same service,
then a lookup. -/
theorem C6_witness :
    (save gcmModel key0 nonce0 nonce0 (save gcmModel key0 nonce0 nonce0 [] [120] [1] [2])
        [120] [3] [4]).countP (fun r => r.1 == [120]) = 1
    ∧ get gcmModel key0 (save gcmModel key0 nonce0 nonce0
        (save gcmModel key0 nonce0 nonce0 [] [120] [1] [2]) [120] [3] [4]) [120]
        = .ok (some ([3], [4])) :=
  C6_save_is_upsert gcmModel key0 nonce0 nonce0 nonce0 nonce0 [] [120] [1] [2] [3] [4]
    (by decide) (by decide) (by decide) (by decide) (by decide) (by decide)

/-- C7: get on an absent service returns none and never raises; get on
a present row holding fields encrypted under the vault's key decrypts
both and returns the pair. -/
theorem C7_get_absent_or_present (gcm : GCM) (key : Bytes) (t : Table) (s : Bytes) :
    ((∀ r ∈ t, r.1 ≠ s) → get gcm key t s = .ok none)
    ∧ (∀ el ep l p n1 n2, t.find? (fun r => r.1 == s) = some (s, el, ep)
        → el = encrypt gcm key n1 l → ep = encrypt gcm key n2 p
        → n1.length = 16 → n2.length = 16 → isBytes n1 → isBytes n2
        → isBytes l → isBytes p
        → get gcm key t s = .ok (some (l, p))) := by
  constructor
  · intro h
    unfold get
    have hn : t.find? (fun r => r.1 == s) = none := by
      rw [List.find?_eq_none]
      intro r hr
      simp [h r hr]
    rw [hn]
  · intro el ep l p n1 n2 hf he1 he2 hn1 hn2 hb1 hb2 hbl hbp
    unfold get
    rw [hf]
    subst he1
    subst he2
    simp only [decrypt_encrypt gcm key n1 l hn1 hb1 hbl,
      decrypt_encrypt gcm key n2 p hn2 hb2 hbp]
    rfl

/-- Witness for C7 at concrete inputs: a lookup of an absent service,
and a lookup of a present, well-formed row. -/
theorem C7_witness :
    get gcmModel key0 [([120], [8], [9])] [121] = .ok none
    ∧ get gcmModel key0
        [([121], encrypt gcmModel key0 nonce0 [1], encrypt gcmModel key0 nonce0 [2])] [121]
        = .ok (some ([1], [2])) :=
  ⟨(C7_get_absent_or_present gcmModel key0 [([120], [8], [9])] [121]).1 (by decide),
   (C7_get_absent_or_present gcmModel key0
      [([121], encrypt gcmModel key0 nonce0 [1], encrypt gcmModel key0 nonce0 [2])]
      [121]).2 (encrypt gcmModel key0 nonce0 [1]) (encrypt gcmModel key0 nonce0 [2])
      [1] [2] nonce0 nonce0 (by rw [List.find?]; simp) rfl rfl (by decide) (by decide)
      (by decide) (by decide) (by decide) (by decide)⟩

/-! ### C8: enumeration order -/

/-- Totality of the BINARY-collation comparison. -/
theorem lexLe_total : ∀ a b : Bytes, lexLe a b = true ∨ lexLe b a = true
  | [], _ => .inl rfl
  | _ :: _, [] => .inr rfl
  | a :: as, b :: bs => by
      rcases Nat.lt_trichotomy a b with h | h | h
      · left; simp [lexLe, h]
      · subst h
        rcases lexLe_total as bs with ih | ih
        · left; simp [lexLe, Nat.lt_irrefl, ih]
        · right; simp [lexLe, Nat.lt_irrefl, ih]
      · right; simp [lexLe, h]

/-- Transitivity of the BINARY-collation comparison. -/
theorem lexLe_trans : ∀ a b c : Bytes, lexLe a b = true → lexLe b c = true → lexLe a c = true
  | [], _, _, _, _ => rfl
  | _ :: _, [], _, h, _ => by simp [lexLe] at h
  | _ :: _, _ :: _, [], _, h => by simp [lexLe] at h
  | a :: as, b :: bs, c :: cs, h1, h2 => by
      simp only [lexLe] at h1 h2 ⊢
      by_cases hab : a < b
      · by_cases hbc : b < c
        · rw [if_pos (Nat.lt_trans hab hbc)]
        · by_cases hcb : c < b
          · rw [if_neg hbc, if_pos hcb] at h2
            exact absurd h2 (by simp)
          · have hbceq : b = c := Nat.le_antisymm (Nat.not_lt.1 hcb) (Nat.not_lt.1 hbc)
            subst hbceq
            rw [if_pos hab]
      · by_cases hba : b < a
        · rw [if_neg hab, if_pos hba] at h1
          exact absurd h1 (by simp)
        · have habeq : a = b := Nat.le_antisymm (Nat.not_lt.1 hba) (Nat.not_lt.1 hab)
          subst habeq
          rw [if_neg hab, if_neg hba] at h1
          by_cases hbc : a < c
          · rw [if_pos hbc]
          · by_cases hcb : c < a
            · rw [if_neg hbc, if_pos hcb] at h2
              exact absurd h2 (by simp)
            · rw [if_neg hbc, if_neg hcb] at h2 ⊢
              exact lexLe_trans as bs cs h1 h2

/-- Antisymmetry of the BINARY-collation comparison. -/
theorem lexLe_antisymm : ∀ a b : Bytes, lexLe a b = true → lexLe b a = true → a = b
  | [], [], _, _ => rfl
  | [], _ :: _, _, h => by simp [lexLe] at h
  | _ :: _, [], h, _ => by simp [lexLe] at h
  | a :: as, b :: bs, h1, h2 => by
      simp only [lexLe] at h1 h2
      by_cases hab : a < b
      · rw [if_neg (Nat.lt_asymm hab), if_pos hab] at h2
        exact absurd h2 (by simp)
      · by_cases hba : b < a
        · rw [if_neg hab, if_pos hba] at h1
          exact absurd h1 (by simp)
        · have habeq : a = b := Nat.le_antisymm (Nat.not_lt.1 hba) (Nat.not_lt.1 hab)
          subst habeq
          rw [if_neg hab, if_neg hba] at h1 h2
          rw [lexLe_antisymm as bs h1 h2]

instance : IsAntisymm Bytes (fun a b => lexLe a b = true) :=
  ⟨fun a b => lexLe_antisymm a b⟩

/-- C8: list_all returns exactly the service names present in the
store (a permutation of the stored keys), in ascending order under the
BINARY collation, and its output is canonical: any store whose keys
are the same up to order yields the same list -- so the result depends
only on the plaintext service names, independent of insertion order,
and no decryption is involved. -/
theorem C8_list_all_sorted (t t' : Table) :
    List.Perm (list_all t) (t.map (fun r => r.1))
    ∧ (list_all t).Pairwise (fun a b => lexLe a b = true)
    ∧ (List.Perm (t'.map (fun r => r.1)) (t.map (fun r => r.1)) → list_all t' = list_all t) := by
  have hsorted : ∀ u : Table, (list_all u).Pairwise (fun a b => lexLe a b = true) := by
    intro u
    exact List.sorted_mergeSort lexLe_trans
      (fun a b => by rcases lexLe_total a b with h | h <;> simp [h])
      (u.map (fun r => r.1))
  refine ⟨List.mergeSort_perm _ _, hsorted t, ?_⟩
  intro hperm
  exact List.eq_of_perm_of_sorted
    (((List.mergeSort_perm _ _).trans hperm).trans (List.mergeSort_perm _ _).symm)
    (hsorted t') (hsorted t)

/-- Witness for C8: the spec's example, services saved in the order
b, a, c, listed alphabetically, and the same multiset of services in
another order produces the same listing. -/
theorem C8_witness :
    List.Perm (list_all [([98], [], []), ([97], [], []), ([99], [], [])])
      [[98], [97], [99]]
    ∧ (list_all [([98], [], []), ([97], [], []), ([99], [], [])]).Pairwise
        (fun a b => lexLe a b = true)
    ∧ list_all [([97], [], []), ([99], [], []), ([98], [], [])]
        = list_all [([98], [], []), ([97], [], []), ([99], [], [])] := by
  have h := C8_list_all_sorted [([98], [], []), ([97], [], []), ([99], [], [])]
    [([97], [], []), ([99], [], []), ([98], [], [])]
  exact ⟨h.1, h.2.1, h.2.2 (by decide)⟩

end AeonVault
